import Mathlib

/-!
# Verification of the better-docs indexing and log-parsing core

Shallow embedding of the `indexing` package (`specs.go`) and the
rest-assured log parser (`restassured_parser.go`) of the better-docs
repository, with theorems settling the testable properties of its design
document.

Go strings are modelled as Lean `String`s; the Go `strings` primitives used
by the code (`Split`, `Trim`, `TrimSpace`, `TrimPrefix`, `TrimRight`,
`HasPrefix`, `HasSuffix`) are reimplemented below on the character list of
the string, with Go's semantics (e.g. `Split` on `"a//b"` yields
`["a", "", "b"]`, and `Split "" = [""]`).
-/

namespace BetterDocs

/-! ## Go `strings` primitives -/

/-- Go `strings.Split(s, sep)` for a one-character separator, on the
character list: `split '/' "a//b" = ["a","","b"]`, `split c "" = [""]`. -/
def splitChar (c : Char) : List Char → List (List Char)
  | [] => [[]]
  | x :: xs =>
    match splitChar c xs with
    | [] => [[]]
    | h :: t => if x = c then [] :: h :: t else (x :: h) :: t

/-- Joining with a one-character separator (the inverse of `splitChar`). -/
def joinChar (c : Char) : List (List Char) → List Char
  | [] => []
  | [x] => x
  | x :: y :: t => x ++ c :: joinChar c (y :: t)

/-- Drop every leading occurrence of `c`. -/
def dropLeading (c : Char) (s : List Char) : List Char :=
  s.dropWhile (· = c)

/-- Go `strings.Trim(s, cutset)` for the one-character cutset `c`:
drop every leading and trailing occurrence of `c`. -/
def trimChar (c : Char) (s : List Char) : List Char :=
  ((dropLeading c s).reverse.dropWhile (· = c)).reverse

/-- Go `strings.TrimRight(s, cutset)` for a one-character cutset. -/
def trimRightChar (c : Char) (s : List Char) : List Char :=
  (s.reverse.dropWhile (· = c)).reverse

/-- Go `strings.Split(s, "/")`-style split at the `String` level. -/
def goSplit (s : String) (c : Char) : List String :=
  (splitChar c s.data).map String.mk

/-- Go `strings.Trim(s, cutset)` at the `String` level (one-char cutset). -/
def goTrim (s : String) (c : Char) : String :=
  String.mk (trimChar c s.data)

/-- Go `strings.TrimRight(s, cutset)` at the `String` level. -/
def goTrimRight (s : String) (c : Char) : String :=
  String.mk (trimRightChar c s.data)

/-- Go `strings.HasPrefix`. -/
def goStartsWith (s pre : String) : Bool :=
  pre.data.isPrefixOf s.data

/-- Go `strings.HasSuffix`. -/
def goEndsWith (s suf : String) : Bool :=
  suf.data.isSuffixOf s.data

/-- Go `strings.TrimPrefix`. -/
def goStripPre (s pre : String) : String :=
  if goStartsWith s pre then String.mk (s.data.drop pre.data.length) else s

/-- The white-space class trimmed by Go `strings.TrimSpace` (restricted to
the ASCII space characters, which is what captured request logs contain). -/
def isSpaceChar (c : Char) : Bool :=
  c = ' ' || c = '\t' || c = '\n' || c = '\x0b' || c = '\x0c' || c = '\r'

/-- Go `strings.TrimSpace`. -/
def goTrimSpace (s : String) : String :=
  String.mk (((s.data.dropWhile isSpaceChar).reverse.dropWhile isSpaceChar).reverse)

/-! ## Template matching (`matchTemplate`, specs.go lines 624-639)

```go
func matchTemplate(tmpl, path string) bool {
    ts := strings.Split(strings.Trim(tmpl, "/"), "/")
    ps := strings.Split(strings.Trim(path, "/"), "/")
    if len(ts) != len(ps) { return false }
    for i := range ts {
        if strings.HasPrefix(ts[i], "{") && strings.HasSuffix(ts[i], "}") { continue }
        if ts[i] != ps[i] { return false }
    }
    return true
}
```
-/

/-- The segments of a template or path: trim leading/trailing `/` and split
on `/` (as both `matchTemplate` and `extractPathParams` do). -/
def segsOf (s : String) : List String :=
  goSplit (goTrim s '/') '/'

/-- Whether a template segment is brace-delimited, exactly as the loop body
tests it: `strings.HasPrefix(ts[i], "{") && strings.HasSuffix(ts[i], "}")`. -/
def isBraceSeg (t : String) : Bool :=
  goStartsWith t "\x7b" && goEndsWith t "\x7d"

/-- One position of the `matchTemplate` loop: the template segment is
brace-delimited (`continue`), or it equals the path segment. -/
def segMatches (t p : String) : Bool :=
  isBraceSeg t || t = p

/-- The body of `matchTemplate` after splitting: equal segment counts and
every position passes `segMatches` (the `for` loop). -/
def matchSegs (ts ps : List String) : Bool :=
  ts.length = ps.length && (ts.zip ps).all fun tp => segMatches tp.1 tp.2

/-- `matchTemplate` (specs.go): split both sides, then compare segment
lists. -/
def matchTemplate (tmpl path : String) : Bool :=
  matchSegs (segsOf tmpl) (segsOf path)

/-! ## Path-parameter extraction (`extractPathParams`, specs.go 641-664) -/

/-- `extractPathParams(basePath, tmpl, fullPath)`: strip the base path and a
leading `/` from the full path, split both template and cleaned path; on a
segment-count mismatch return the empty map, otherwise collect
`name ↦ segment` for every `{name}` template segment. -/
def extractPathParams (basePath tmpl fullPath : String) : List (String × String) :=
  let clean := goStripPre (goStripPre fullPath basePath) "/"
  let tSeg := segsOf tmpl
  let pSeg := segsOf clean
  if tSeg.length ≠ pSeg.length then []
  else
    (tSeg.zip pSeg).foldl
      (fun params tp =>
        if isBraceSeg tp.1 then
          params ++ [(String.mk (tp.1.data.drop 1).dropLast, tp.2)]
        else params)
      []

/-! ## `net/url` model

The code uses `url.Parse` (in `firstServerInfo` and `FindOperation`)
together with `URL.Host`, `URL.Hostname()` and `URL.Path`. We model the
fragment of `net/url` those call sites exercise: absolute URLs of the form
`scheme://host[:port][/path][?query]` (server URLs and captured request
URLs contain no userinfo, fragment or percent-escapes). Go's `Parse`
rejects ASCII control characters; other strings parse. -/

/-- Split a character list at the first occurrence of `c`: the part before
it, and (when present) the part after it. -/
def splitAtFirst (c : Char) : List Char → List Char × Option (List Char)
  | [] => ([], none)
  | x :: xs =>
    if x = c then ([], some xs)
    else
      let r := splitAtFirst c xs
      (x :: r.1, r.2)

/-- Split `scheme://rest` into scheme and rest, when the separator is
present. -/
def splitSchemeRest : List Char → Option (List Char × List Char)
  | [] => none
  | ':' :: '/' :: '/' :: rest => some ([], rest)
  | x :: xs => (splitSchemeRest xs).map fun r => (x :: r.1, r.2)

/-- The result of `url.Parse`: the fields the code reads. -/
structure GoURL where
  scheme : String
  host : String
  path : String
  rawQuery : String
deriving Repr, DecidableEq

/-- `url.Parse` on the URL forms the code meets (see section comment). -/
def goURLParse (s : String) : Except String GoURL :=
  if s.data.any (fun c => c.toNat < 32 || c.toNat = 127) then
    .error "net/url: invalid control character in URL"
  else
    match splitSchemeRest s.data with
    | some (sch, rest) =>
      let host := rest.takeWhile fun c => c ≠ '/' && c ≠ '?'
      let rem := rest.drop host.length
      let (path, query) := splitAtFirst '?' rem
      .ok ⟨String.mk sch, String.mk host, String.mk path,
           String.mk (query.getD [])⟩
    | none =>
      let (path, query) := splitAtFirst '?' s.data
      .ok ⟨"", "", String.mk path, String.mk (query.getD [])⟩

/-- `URL.Hostname()` (net/url `stripPort` + IPv6 bracket stripping): cut at
the last `:` when only digits follow it, then strip surrounding `[` `]`. -/
def goHostname (host : String) : String :=
  let d := host.data
  let afterPort :=
    match d.reverse.findIdx? (· = ':') with
    | none => d
    | some k =>
      let colonPos := d.length - 1 - k
      if (d.drop (colonPos + 1)).all (·.isDigit) then d.take colonPos else d
  let core :=
    if afterPort.head? = some '[' ∧ afterPort.getLast? = some ']' then
      (afterPort.drop 1).dropLast
    else afterPort
  String.mk core

/-! ## JSON values (`map[string]interface{}` and friends)

`LoadConfigAndIndex` and the sanitizers walk untyped decoded JSON; we model
the decoded value as a tagged tree, an object being an association list
with the unique keys `encoding/json` produces. -/

/-- A decoded `interface{}` JSON value. -/
inductive GoVal where
  | str (s : String)
  | num (n : Int)
  | bool (b : Bool)
  | null
  | arr (xs : List GoVal)
  | obj (fields : List (String × GoVal))
deriving Repr

/-- Reading `m[k]` on a Go map modelled as an association list. -/
def lookupField (fields : List (String × GoVal)) (k : String) : Option GoVal :=
  (fields.find? fun kv => kv.1 = k).map (·.2)

/-! ## Spec loading (`firstServerInfo`, `LoadConfigAndIndex`) -/

/-- `SpecIndex` (specs.go): runtime metadata for one spec. -/
structure SpecIndex where
  specName : String
  file : String
  host : String
  basePath : String
  contentHash : String
deriving Repr, DecidableEq

/-- The `Registry` (`map[string]*SpecIndex`), modelled as an association
list with unique keys. -/
abbrev Registry := List (String × SpecIndex)

/-- Go map assignment `registry[host] = v`: replace any binding of the key,
keeping one entry per key. -/
def regInsert (reg : Registry) (k : String) (v : SpecIndex) : Registry :=
  (k, v) :: reg.filter fun kv => kv.1 ≠ k

/-- Go map read `reg[host]` with its `ok` flag as an `Option`. -/
def regLookup (reg : Registry) (k : String) : Option SpecIndex :=
  (reg.find? fun kv => kv.1 = k).map (·.2)

/-- `firstServerInfo` (specs.go 163-186): extract `(host, basePath)` from
the first server URL. Returns `u.Host` — the authority with any declared
port — and `u.Path` with trailing slashes trimmed (`"/"` becoming `""`). -/
def firstServerInfo (raw : List (String × GoVal)) : Except String (String × String) :=
  match lookupField raw "servers" with
  | some (.arr (s0 :: _)) =>
    match s0 with
    | .obj m =>
      match lookupField m "url" with
      | some (.str urlStr) =>
        match goURLParse urlStr with
        | .error e => .error e
        | .ok u =>
          let basePath := goTrimRight u.path '/'
          let basePath := if basePath = "/" then "" else basePath
          .ok (u.host, basePath)
      | _ => .error "servers[0].url not string"
    | _ => .error "invalid servers[0]"
  | some (.arr []) => .error "spec has no servers[0] entry"
  | _ => .error "spec has no servers[0] entry"

/-- One configured spec after the file reads `LoadConfigAndIndex` performs:
its config `name`, resolved absolute `file` path, the decoded JSON object
of the spec file, and the SHA-256 hex `hash` of its raw bytes. -/
structure SpecInput where
  name : String
  file : String
  raw : List (String × GoVal)
  hash : String

/-- The loop of `LoadConfigAndIndex` (specs.go 203-224): for each config
entry take `(host, basePath)` from `firstServerInfo` and assign
`registry[host] = &SpecIndex{name, file, host, basePath, hash}`; any
`firstServerInfo` error aborts the load. -/
def loadConfigFrom (reg : Registry) : List SpecInput → Except String Registry
  | [] => .ok reg
  | cfg :: rest =>
    match firstServerInfo cfg.raw with
    | .error e => .error (cfg.name ++ ": " ++ e)
    | .ok hb =>
      loadConfigFrom (regInsert reg hb.1 ⟨cfg.name, cfg.file, hb.1, hb.2, cfg.hash⟩) rest

/-- `LoadConfigAndIndex` (specs.go 188-232), with the file system already
read into the `SpecInput`s (the gob hash cache it also writes is not
consulted when building the registry). -/
def loadConfigAndIndex (cfgs : List SpecInput) : Except String Registry :=
  loadConfigFrom [] cfgs

/-- Specification-side description of the overwrite behaviour: the spec
index of the last config entry whose first server declares host `k`. -/
def lastWins (cfgs : List SpecInput) (k : String) : Option SpecIndex :=
  cfgs.reverse.findSome? fun cfg =>
    match firstServerInfo cfg.raw with
    | .ok hb => if hb.1 = k then some ⟨cfg.name, cfg.file, hb.1, hb.2, cfg.hash⟩ else none
    | .error _ => none

/-! ## Indexed documents and search materialisation
(`indexSpecOnDisk` 466-496, `SearchBleve` 410-435)

The full-text engine (bleve) is external to the repository; the shard is
modelled as the list of `(id, stored fields)` documents `indexSpecOnDisk`
writes, and a hit as the `(ID, Fields)` pair `SearchBleve` reads back.
What the repository owns — the id format `specName|method|template|
operationId` and the materialisation of a hit into a `SearchResult` — is
embedded from the source. -/

/-- `OpEntry` (specs.go): one operation extracted from a spec. -/
structure OpEntry where
  method : String
  template : String
  operationID : String
  description : String
  tags : List String
deriving Repr, DecidableEq

/-- `SearchResult` (specs.go). -/
structure SearchResult where
  specName : String
  operationID : String
  method : String
  template : String
  description : String
  tags : List String
deriving Repr, DecidableEq

/-- The document id written by `indexSpecOnDisk`:
`fmt.Sprintf("%s|%s|%s|%s", spec.SpecName, e.Method, e.Template, e.OperationID)`. -/
def docID (specName : String) (e : OpEntry) : String :=
  specName ++ "|" ++ e.method ++ "|" ++ e.template ++ "|" ++ e.operationID

/-- The stored fields written by `indexSpecOnDisk` for one entry. -/
def docFields (specName : String) (e : OpEntry) : List (String × GoVal) :=
  [("SpecName", .str specName), ("OperationID", .str e.operationID),
   ("Method", .str e.method), ("Template", .str e.template),
   ("Description", .str e.description), ("Tags", .arr (e.tags.map .str))]

/-- `ifaceSliceToString` (specs.go 449-464): normalise the stored `Tags`
field to `[]string`. -/
def ifaceSliceToString : Option GoVal → List String
  | some (.arr xs) => xs.filterMap fun x => match x with | .str s => some s | _ => none
  | some (.str s) => [s]
  | _ => []

/-- The hit-materialisation loop body of `SearchBleve` (specs.go 425-432):
split the hit id on `|`; with exactly four parts build
`SearchResult{parts[0], parts[3], parts[1], parts[2], "", tags}`, otherwise
a `SearchResult` carrying only the tags. -/
def materialiseHit (id : String) (fields : List (String × GoVal)) : SearchResult :=
  let tags := ifaceSliceToString (lookupField fields "Tags")
  match goSplit id '|' with
  | [p0, p1, p2, p3] => ⟨p0, p3, p1, p2, "", tags⟩
  | _ => ⟨"", "", "", "", "", tags⟩

/-! ## Shard builder (`BuildOrOpenSpecIndex`, specs.go 304-351) -/

/-- The per-spec slice of the cache directory `BuildOrOpenSpecIndex`
touches: the content of the `<specName>.hash` sibling (when the file
exists) and whether the `<specName>.bleve` shard directory exists. -/
structure ShardFS where
  hashContent : Option String
  dirExists : Bool
deriving Repr, DecidableEq

/-- `BuildOrOpenSpecIndex` on the success path: `prevHash` is what
`os.ReadFile` gives with its error ignored (`""` when the sibling is
absent); rebuild when `prevHash != spec.ContentHash ||
os.IsNotExist(dirErr)`, recreating the shard directory and writing the
hash sibling, and otherwise open the existing shard. Returns whether a
rebuild happened, and the resulting directory state. -/
def buildOrOpenSpecIndex (fs : ShardFS) (contentHash : String) : Bool × ShardFS :=
  let prevHash := fs.hashContent.getD ""
  let needRebuild := prevHash ≠ contentHash || !fs.dirExists
  if needRebuild then (true, ⟨some contentHash, true⟩)
  else (false, fs)

/-! ## Operation resolver (`FindOperation`, specs.go 354-407)

The alias query `SearchBleve(idx, nil, nil, rel, 100, 0)` runs inside the
external engine; its result list is a parameter here, and the candidate
filtering and matching loop is embedded from the source. -/

/-- Go `strings.ToUpper` (the methods reaching it are ASCII). -/
def goToUpper (s : String) : String :=
  String.mk (s.data.map Char.toUpper)

/-- `rel` as computed by `FindOperation` (lines 366-371): strip the spec's
base path from the full path and re-add a leading `/` when missing. -/
def relPath (basePath full : String) : String :=
  let base := goTrimRight basePath '/'
  let rel := goStripPre full base
  if !goStartsWith rel "/" then "/" ++ rel else rel

/-- The resolver errors (`FindOperation`s `fmt.Errorf` cases). -/
inductive FindError where
  | invalidURL (msg : String)
  | unknownHost (host : String)
  | noOperation (method rel specName : String)
deriving Repr, DecidableEq

/-- The candidate loop of `FindOperation` (lines 388-404): skip hits of
other specs or methods; the first hit whose template matches `full` or
`rel` wins, its path params extracted from `full` against the untrimmed
base path. -/
def findCandidate (metaSpecName basePath wantMethod full rel : String)
    (results : List SearchResult) :
    Option (String × String × List (String × String)) :=
  results.findSome? fun r =>
    if r.specName ≠ metaSpecName then none
    else if r.method ≠ wantMethod then none
    else if matchTemplate r.template full || matchTemplate r.template rel then
      some (r.specName, r.operationID, extractPathParams basePath r.template full)
    else none

/-- `FindOperation` (specs.go 354-407) with the engine's hit list for the
broad `rel` query supplied as `results`: parse the URL, look up
`URL.Hostname()` in the registry, compute `full`/`rel`, then scan the
candidates. -/
def findOperation (reg : Registry) (results : List SearchResult)
    (method rawURL : String) :
    Except FindError (String × String × List (String × String)) :=
  match goURLParse rawURL with
  | .error e => .error (.invalidURL e)
  | .ok u =>
    let host := goHostname u.host
    match regLookup reg host with
    | none => .error (.unknownHost host)
    | some meta =>
      let full := u.path
      let rel := relPath meta.basePath full
      let wantMethod := goToUpper method
      match findCandidate meta.specName meta.basePath wantMethod full rel results with
      | some out => .ok out
      | none => .error (.noOperation method rel meta.specName)

/-! ## Log parser (`ParseLog`, restassured_parser.go 39-107)

The byte stream is modelled as its list of lines (`bufio.ReadString('\n')`
chunks, `\n` included in the trimmed-away whitespace; a stream ending in
`\n` contributes a final empty line). -/

/-- The parser states. -/
inductive ParseState where
  | none
  | headers
  | body
deriving Repr, DecidableEq

/-- The mutable locals of `ParseLog` while scanning. -/
structure ParseAccum where
  method : String
  uri : String
  headers : List (String × String)
  params : List (String × String)
  bodyLines : List String
  state : ParseState
deriving Repr, DecidableEq

/-- The parsed request (`ParsedRequest`, with the body already joined;
`PathParams` is only filled by later callers). -/
structure ParsedRequest where
  method : String
  uri : String
  headers : List (String × String)
  params : List (String × String)
  body : String
deriving Repr, DecidableEq

/-- A byte of an RFC 7230 header field name (`textproto`
`validHeaderFieldByte`). -/
def validHeaderFieldChar (c : Char) : Bool :=
  ('0' ≤ c && c ≤ '9') || ('a' ≤ c && c ≤ 'z') || ('A' ≤ c && c ≤ 'Z') ||
  c = '!' || c = '#' || c = '$' || c = '%' || c = '&' || c = '\x27' ||
  c = '*' || c = '+' || c = '-' || c = '.' || c = '^' || c = '_' ||
  c = '\x60' || c = '|' || c = '~'

/-- The canonicalisation pass of `textproto.CanonicalMIMEHeaderKey`:
uppercase the first letter and each letter after a `-`, lowercase the
rest. -/
def canonicalChars : Bool → List Char → List Char
  | _, [] => []
  | upper, c :: cs =>
    (if upper then c.toUpper else c.toLower) :: canonicalChars (c = '-') cs

/-- `textproto.CanonicalMIMEHeaderKey`: canonicalise, unless some byte is
not a valid header-field byte, in which case the key is left unchanged. -/
def canonicalMIMEHeaderKey (s : String) : String :=
  if s.data.all validHeaderFieldChar then String.mk (canonicalChars true s.data)
  else s

/-- Go `strings.SplitN(s, "=", 2)`. -/
def splitN2Eq (s : String) : List String :=
  match splitAtFirst '=' s.data with
  | (a, none) => [String.mk a]
  | (a, some b) => [String.mk a, String.mk b]

/-- `url.Values` from a raw query (`URL.Query()`/`ParseQuery` on the
escape-free queries captured logs contain): split on `&`, each non-empty
item at its first `=`. -/
def parseQuery (q : String) : List (String × String) :=
  (splitChar '&' q.data).filterMap fun item =>
    if item = [] then none
    else
      match splitAtFirst '=' item with
      | (k, none) => some (String.mk k, "")
      | (k, some v) => some (String.mk k, String.mk v)

/-- The `Params` assignment on a `Request URI:` line:
`if u, err := url.Parse(pr.URI); err == nil { pr.Params = u.Query() }`. -/
def paramsOfURI (uri : String) (old : List (String × String)) :
    List (String × String) :=
  match goURLParse uri with
  | .ok u => parseQuery u.rawQuery
  | .error _ => old

/-- One iteration of the `ParseLog` loop: Go's `switch` over the trimmed
line, cases in source order — the four line-kind cases fire in every
state; only afterwards do the `state == StateHeaders` / `state ==
StateBody` cases apply. -/
def parseStep (acc : ParseAccum) (line : String) : ParseAccum :=
  let trim := goTrimSpace line
  if goStartsWith trim "Request method:" then
    { acc with method := goTrimSpace (goStripPre trim "Request method:") }
  else if goStartsWith trim "Request URI:" then
    let uri := goTrimSpace (goStripPre trim "Request URI:")
    { acc with uri := uri, params := paramsOfURI uri acc.params }
  else if goStartsWith trim "Headers:" then
    let rest := goTrimSpace (goStripPre trim "Headers:")
    let headers :=
      if rest ≠ "" && rest ≠ "<none>" then
        match splitN2Eq rest with
        | [k, v] =>
          acc.headers ++ [(canonicalMIMEHeaderKey (goTrimSpace k), goTrimSpace v)]
        | _ => acc.headers
      else acc.headers
    { acc with headers := headers, state := .headers }
  else if goStartsWith trim "Body:" then
    let c := goTrimSpace (goStripPre trim "Body:")
    let bodyLines :=
      if c ≠ "" && c ≠ "<none>" then acc.bodyLines ++ [c] else acc.bodyLines
    { acc with bodyLines := bodyLines, state := .body }
  else if acc.state = .headers then
    if trim = "" then { acc with state := .none }
    else
      match splitN2Eq trim with
      | [k, v] =>
        { acc with
          headers := acc.headers ++ [(canonicalMIMEHeaderKey (goTrimSpace k), goTrimSpace v)] }
      | _ => acc
  else if acc.state = .body then
    if trim = "" || goStartsWith trim "Response" then { acc with state := .none }
    else { acc with bodyLines := acc.bodyLines ++ [trim] }
  else acc

/-- The accumulator after scanning the whole stream, starting from the
zero-valued locals in state `None`. -/
def finalAccum (lines : List String) : ParseAccum :=
  lines.foldl parseStep ⟨"", "", [], [], [], .none⟩

/-- `ParseLog`: scan every line, join the body with `\n`, and fail iff
`pr.Method == "" || pr.URI == ""`. -/
def parseLog (lines : List String) : Except String ParsedRequest :=
  let acc := finalAccum lines
  if acc.method = "" || acc.uri = "" then .error "missing method or URI"
  else .ok ⟨acc.method, acc.uri, acc.headers, acc.params,
            String.intercalate "\n" acc.bodyLines⟩

/-! ## Component sanitizer (`sanitizeComponents`, specs.go 521-530) -/

/-- Go map assignment `m[k] = v` on an object association list. -/
def objInsert (fields : List (String × GoVal)) (k : String) (v : GoVal) :
    List (String × GoVal) :=
  if fields.any (fun kv => kv.1 = k) then
    fields.map fun kv => if kv.1 = k then (k, v) else kv
  else fields ++ [(k, v)]

/-- `strings.ToUpper(string(k[0])) + k[1:]` — `none` models the index
out-of-range panic of `k[0]` on an empty key. -/
def titleCaseKey (k : String) : Option String :=
  match k.data with
  | [] => none
  | c :: rest => some (String.mk (c.toUpper :: rest))

/-- The loop body fold of `sanitizeComponents` over the entries still to be
visited: add the title-cased key when it differs; `none` models the panic
on an empty key. -/
def sanitizeSchemasLoop (acc : List (String × GoVal)) :
    List (String × GoVal) → Option (List (String × GoVal))
  | [] => some acc
  | kv :: rest =>
    match titleCaseKey kv.1 with
    | Option.none => Option.none
    | some title =>
      sanitizeSchemasLoop (if title ≠ kv.1 then objInsert acc title kv.2 else acc) rest

/-- The loop of `sanitizeComponents`: for each entry of `schemas`, add the
title-cased key (entries added during the iteration either carry an
already-title-cased key or overwrite one, so visiting the original entries
is faithful to Go's range-while-inserting semantics). -/
def sanitizeSchemas (schemas : List (String × GoVal)) :
    Option (List (String × GoVal)) :=
  sanitizeSchemasLoop schemas schemas

/-- `sanitizeComponents` (specs.go 521-530): when
`raw["components"].(map)` and `comps["schemas"].(map)` both hold, run the
title-casing loop in place; a failed type assertion leaves a nil map and
the loop never runs. `none` models the `k[0]` panic. -/
def sanitizeComponents (raw : List (String × GoVal)) :
    Option (List (String × GoVal)) :=
  match lookupField raw "components" with
  | some (.obj comps) =>
    match lookupField comps "schemas" with
    | some (.obj schemas) =>
      (sanitizeSchemas schemas).map fun schemas' =>
        objInsert raw "components" (.obj (objInsert comps "schemas" (.obj schemas')))
    | _ => some raw
  | _ => some raw

/-- The keys of `components.schemas` reachable through the two type
assertions of `sanitizeComponents`. -/
def schemaKeys (raw : List (String × GoVal)) : List String :=
  match lookupField raw "components" with
  | some (.obj comps) =>
    match lookupField comps "schemas" with
    | some (.obj schemas) => schemas.map (·.1)
    | _ => []
  | _ => []

/-! ## Theorems for C4 and C5 -/

/-- Shared: a true `matchSegs` gives pointwise `segMatches`. -/
theorem matchSegs_pointwise (ts ps : List String) (h : matchSegs ts ps = true) :
    ts.length = ps.length ∧
    ∀ i (hi : i < ts.length) (hp : i < ps.length),
      segMatches (ts.get ⟨i, hi⟩) (ps.get ⟨i, hp⟩) = true := by
  unfold matchSegs at h
  simp only [Bool.and_eq_true, decide_eq_true_eq, List.all_eq_true] at h
  obtain ⟨hlen, hall⟩ := h
  refine ⟨hlen, fun i hi hp => ?_⟩
  have hz : i < (ts.zip ps).length := by
    simp only [List.length_zip]; omega
  have hmem : (ts.get ⟨i, hi⟩, ps.get ⟨i, hp⟩) ∈ ts.zip ps := by
    have hgz := @List.getElem_zip _ _ ts ps i hz
    have hmem' := List.getElem_mem hz
    rw [hgz] at hmem'
    simpa using hmem'
  exact hall _ hmem

/-- C4: if `matchTemplate T P` is true then, after trimming leading and
trailing slashes, `T` and `P` split into equally many segments on `/`, and
every segment of `T` that is not brace-delimited equals the corresponding
segment of `P`. -/
theorem c4_matchTemplate_sound (T P : String) (h : matchTemplate T P = true) :
    (segsOf T).length = (segsOf P).length ∧
    ∀ i (hi : i < (segsOf T).length) (hp : i < (segsOf P).length),
      isBraceSeg ((segsOf T).get ⟨i, hi⟩) = false →
      (segsOf T).get ⟨i, hi⟩ = (segsOf P).get ⟨i, hp⟩ := by
  obtain ⟨hlen, hpt⟩ := matchSegs_pointwise _ _ h
  refine ⟨hlen, fun i hi hp hnb => ?_⟩
  have := hpt i hi hp
  simp only [segMatches, hnb, Bool.false_or, decide_eq_true_eq] at this
  exact this

/-- C4 witness: the soundness statement instantiated at the happy-path
template and path of the test suite. -/
theorem c4_matchTemplate_sound_witness :
    matchTemplate "/items/{id}" "/items/123" = true ∧
    ((segsOf "/items/{id}").length = (segsOf "/items/123").length ∧
     ∀ i (hi : i < (segsOf "/items/{id}").length)
       (hp : i < (segsOf "/items/123").length),
       isBraceSeg ((segsOf "/items/{id}").get ⟨i, hi⟩) = false →
       (segsOf "/items/{id}").get ⟨i, hi⟩ = (segsOf "/items/123").get ⟨i, hp⟩) :=
  ⟨by decide, c4_matchTemplate_sound "/items/{id}" "/items/123" (by decide)⟩

/-- C5 counterexample: the claim says a brace-delimited template segment
matches no empty path segment, but `matchTemplate "/a/{id}/b" "/a//b"`
is true although the path segment paired with `{id}` is empty. -/
theorem c5_counterexample :
    isBraceSeg "{id}" = true ∧
    (segsOf "/a/{id}/b")[1]? = some "{id}" ∧
    (segsOf "/a//b")[1]? = some "" ∧
    matchTemplate "/a/{id}/b" "/a//b" = true := by decide

/-- C5 (amended): a template segment that is exactly brace-delimited
matches every path segment at its position, the empty segment included:
the result of the `matchTemplate` loop is unchanged when the path segment
facing a brace-delimited template segment is replaced by the empty
segment. -/
theorem c5_brace_matches_any_segment (ts1 ts2 ps1 ps2 : List String)
    (t p : String) (hb : isBraceSeg t = true) (hlen : ts1.length = ps1.length) :
    matchSegs (ts1 ++ t :: ts2) (ps1 ++ p :: ps2) =
      matchSegs (ts1 ++ t :: ts2) (ps1 ++ "" :: ps2) := by
  unfold matchSegs
  rw [List.zip_append hlen, List.zip_append hlen]
  simp [List.all_append, segMatches, hb]

/-- C5 witness: the amended statement instantiated at the counterexample
shape. -/
theorem c5_brace_matches_any_segment_witness :
    isBraceSeg "{id}" = true ∧ [("a" : String)].length = [("a" : String)].length ∧
    matchSegs (["a"] ++ "{id}" :: ["b"]) (["a"] ++ "x" :: ["b"]) =
      matchSegs (["a"] ++ "{id}" :: ["b"]) (["a"] ++ "" :: ["b"]) :=
  ⟨by decide, rfl,
    c5_brace_matches_any_segment ["a"] ["b"] ["a"] ["b"] "{id}" "x" (by decide) rfl⟩

/-! ## Registry lemmas and theorems for C1 and C2 -/

/-- Shared: membership after a registry assignment. -/
theorem mem_regInsert (reg : Registry) (k : String) (v : SpecIndex)
    (kv : String × SpecIndex) (h : kv ∈ regInsert reg k v) :
    kv = (k, v) ∨ kv ∈ reg := by
  unfold regInsert at h
  rcases List.mem_cons.mp h with h | h
  · exact Or.inl h
  · exact Or.inr (List.mem_of_mem_filter h)

/-- Shared: every entry of a loaded registry is keyed by the `u.Host` that
`firstServerInfo` returned for one of the inputs. -/
theorem mem_loadConfigFrom : ∀ (cfgs : List SpecInput) (reg res : Registry),
    loadConfigFrom reg cfgs = .ok res → ∀ kv, kv ∈ res → kv ∈ reg ∨
      ∃ cfg ∈ cfgs, ∃ bp, firstServerInfo cfg.raw = .ok (kv.1, bp) ∧
        kv.2 = ⟨cfg.name, cfg.file, kv.1, bp, cfg.hash⟩
  | [], reg, res, h, kv, hm => by
    unfold loadConfigFrom at h
    cases h
    exact Or.inl hm
  | cfg :: rest, reg, res, h, kv, hm => by
    unfold loadConfigFrom at h
    split at h
    · cases h
    next hb heq =>
      rcases mem_loadConfigFrom rest _ _ h kv hm with hin | ⟨c, hc, bp, h1, h2⟩
      · rcases mem_regInsert _ _ _ _ hin with hkv | hin'
        · right
          refine ⟨cfg, List.mem_cons_self _ _, hb.2, ?_, ?_⟩
          · rw [hkv]; exact heq
          · rw [hkv]
        · exact Or.inl hin'
      · exact Or.inr ⟨c, List.mem_cons_of_mem _ hc, bp, h1, h2⟩

/-- A config input whose first server URL declares a port. -/
def c1PortInput : SpecInput :=
  ⟨"port-spec", "/abs/port.json",
   [("servers", .arr [.obj [("url", .str "http://example.com:8080/api")]])], "h1"⟩

/-- The spec index `LoadConfigAndIndex` builds for `c1PortInput`. -/
def c1PortIndex : SpecIndex :=
  ⟨"port-spec", "/abs/port.json", "example.com:8080", "/api", "h1"⟩

/-- C1 counterexample: for a spec whose `servers[0].url` declares a port,
the registry key is `u.Host` (`"example.com:8080"`), which is *not* the
parsed hostname (`URL.hostname()` strips the port), and `FindOperation` on
a URL of the declared server misses the registry and fails with
*unknown-host* — refuting both halves of the claim at this input. -/
theorem c1_counterexample :
    loadConfigAndIndex [c1PortInput] = .ok [("example.com:8080", c1PortIndex)] ∧
    goHostname "example.com:8080" ≠ "example.com:8080" ∧
    goURLParse "http://example.com:8080/api/items/1" =
      .ok ⟨"http", "example.com:8080", "/api/items/1", ""⟩ ∧
    findOperation [("example.com:8080", c1PortIndex)] []
        "GET" "http://example.com:8080/api/items/1" =
      .error (.unknownHost "example.com") :=
  ⟨rfl, by decide, rfl, rfl⟩

/-- C1 (amended): the key under which a loaded spec's `SpecIndex` is
inserted equals the parsed `Host` of its `servers[0].url` — the hostname
together with any declared port, as returned by `firstServerInfo` — which
coincides with the hostname `FindOperation` looks up only when the server
URL declares no port. -/
theorem c1_registry_key_is_first_server_host (cfgs : List SpecInput)
    (reg : Registry) (h : loadConfigAndIndex cfgs = .ok reg)
    (k : String) (si : SpecIndex) (hmem : (k, si) ∈ reg) :
    k = si.host ∧ ∃ cfg ∈ cfgs,
      firstServerInfo cfg.raw = .ok (si.host, si.basePath) ∧
      si.specName = cfg.name ∧ si.file = cfg.file ∧ si.contentHash = cfg.hash := by
  rcases mem_loadConfigFrom cfgs [] reg h (k, si) hmem with hin | ⟨cfg, hc, bp, h1, h2⟩
  · cases hin
  · have hsi : si = ⟨cfg.name, cfg.file, k, bp, cfg.hash⟩ := h2
    subst hsi
    exact ⟨rfl, cfg, hc, h1, rfl, rfl, rfl⟩

/-- C1 witness: the amended statement at the port-declaring input. -/
theorem c1_registry_key_witness :
    ("example.com:8080" : String) = c1PortIndex.host ∧ ∃ cfg ∈ [c1PortInput],
      firstServerInfo cfg.raw = .ok (c1PortIndex.host, c1PortIndex.basePath) ∧
      c1PortIndex.specName = cfg.name ∧ c1PortIndex.file = cfg.file ∧
      c1PortIndex.contentHash = cfg.hash :=
  c1_registry_key_is_first_server_host [c1PortInput]
    [("example.com:8080", c1PortIndex)] rfl
    "example.com:8080" c1PortIndex (List.mem_singleton.mpr rfl)

/-- First of two config inputs declaring the same first-server host. -/
def c2SpecA : SpecInput :=
  ⟨"spec-a", "/abs/a.json",
   [("servers", .arr [.obj [("url", .str "http://dup.example/api")]])], "ha"⟩

/-- Second config input declaring the same host as `c2SpecA`. -/
def c2SpecB : SpecInput :=
  ⟨"spec-b", "/abs/b.json",
   [("servers", .arr [.obj [("url", .str "http://dup.example/v2")]])], "hb"⟩

/-- C2 counterexample: both inputs declare host `dup.example`, yet
`LoadConfigAndIndex` succeeds — `registry[host] = ...` silently overwrites,
leaving only the later spec — instead of returning an error. -/
theorem c2_counterexample :
    firstServerInfo c2SpecA.raw = .ok ("dup.example", "/api") ∧
    firstServerInfo c2SpecB.raw = .ok ("dup.example", "/v2") ∧
    loadConfigAndIndex [c2SpecA, c2SpecB] =
      .ok [("dup.example", ⟨"spec-b", "/abs/b.json", "dup.example", "/v2", "hb"⟩)] :=
  ⟨rfl, rfl, rfl⟩

/-- Shared: dropping the bindings of a key `h` does not change a lookup of
a different key `k`. -/
theorem find?_filter_ne (reg : Registry) (h k : String) (hk : k ≠ h) :
    (reg.filter fun kv => kv.1 ≠ h).find? (fun kv => kv.1 = k) =
      reg.find? (fun kv => kv.1 = k) := by
  induction reg with
  | nil => rfl
  | cons x xs ih =>
    by_cases hx : x.1 = h
    · rw [List.filter_cons_of_neg (by simp [hx]),
          List.find?_cons_of_neg _
            (by simp only [decide_eq_true_eq]; exact fun hh => hk (hh.symm.trans hx)),
          ih]
    · rw [List.filter_cons_of_pos (by simp [hx])]
      by_cases hxk : x.1 = k
      · rw [List.find?_cons_of_pos _ (by simp [hxk]),
            List.find?_cons_of_pos _ (by simp [hxk])]
      · rw [List.find?_cons_of_neg _ (by simp [hxk]),
            List.find?_cons_of_neg _ (by simp [hxk]), ih]

/-- Shared: one registry assignment, seen through `regLookup`. -/
theorem regLookup_regInsert (reg : Registry) (h : String) (v : SpecIndex)
    (k : String) :
    regLookup (regInsert reg h v) k = if k = h then some v else regLookup reg k := by
  unfold regLookup regInsert
  by_cases hk : k = h
  · subst hk
    rw [List.find?_cons_of_pos _ (by simp), if_pos rfl]
    rfl
  · rw [List.find?_cons_of_neg _
          (by simp only [decide_eq_true_eq]; exact fun hh => hk hh.symm),
        find?_filter_ne reg h k hk, if_neg hk]

/-- Shared: `findSome?` over an append. -/
theorem findSome?_append {α β : Type} (f : α → Option β) (l1 l2 : List α) :
    (l1 ++ l2).findSome? f = (l1.findSome? f).or (l2.findSome? f) := by
  induction l1 with
  | nil => simp [List.findSome?_nil, Option.or]
  | cons x xs ih =>
    rw [List.cons_append, List.findSome?_cons, List.findSome?_cons]
    cases hfx : f x with
    | none => simpa using ih
    | some b => rfl

/-- Shared: loading from any starting registry resolves a key to the last
input declaring it, falling back to the starting registry. -/
theorem lookup_loadConfigFrom :
    ∀ (cfgs : List SpecInput) (reg res : Registry) (k : String),
      loadConfigFrom reg cfgs = .ok res →
      regLookup res k = (lastWins cfgs k).or (regLookup reg k)
  | [], reg, res, k, h => by
    unfold loadConfigFrom at h
    cases h
    simp [lastWins, List.findSome?_nil, Option.or]
  | cfg :: rest, reg, res, k, h => by
    unfold loadConfigFrom at h
    split at h
    · cases h
    next hb heq =>
      have ih := lookup_loadConfigFrom rest _ res k h
      rw [ih, regLookup_regInsert]
      have hl : lastWins (cfg :: rest) k =
          (lastWins rest k).or
            (if hb.1 = k then some ⟨cfg.name, cfg.file, hb.1, hb.2, cfg.hash⟩
             else Option.none) := by
        unfold lastWins
        rw [List.reverse_cons, findSome?_append]
        simp only [List.findSome?_cons, List.findSome?_nil, heq]
        by_cases hbk : hb.1 = k <;> simp [hbk, Option.or]
      rw [hl]
      by_cases hk : k = hb.1
      · rw [if_pos hk, if_pos (hk.symm)]
        cases lastWins rest k <;> rfl
      · rw [if_neg hk, if_neg (fun hh => hk hh.symm)]
        cases lastWins rest k <;> rfl

/-- C2 (amended): loading never fails on a duplicate first-server host;
instead `registry[host] = ...` overwrites, so whenever loading succeeds
each host key maps to the spec index of the *last* config entry declaring
that host (`lastWins`). -/
theorem c2_duplicate_host_last_wins (cfgs : List SpecInput) (reg : Registry)
    (h : loadConfigAndIndex cfgs = .ok reg) (k : String) :
    regLookup reg k = lastWins cfgs k := by
  have := lookup_loadConfigFrom cfgs [] reg k h
  rw [this]
  cases lastWins cfgs k <;> rfl

/-- C2 witness: the amended statement at the duplicate-host pair. -/
theorem c2_duplicate_host_last_wins_witness :
    regLookup [("dup.example", ⟨"spec-b", "/abs/b.json", "dup.example", "/v2", "hb"⟩)]
        "dup.example" =
      lastWins [c2SpecA, c2SpecB] "dup.example" :=
  c2_duplicate_host_last_wins [c2SpecA, c2SpecB]
    [("dup.example", ⟨"spec-b", "/abs/b.json", "dup.example", "/v2", "hb"⟩)]
    rfl "dup.example"

/-! ## Theorems for C3: document id round-trip -/

/-- Shared: `splitChar` never returns the empty list. -/
theorem splitChar_ne_nil (c : Char) (s : List Char) : splitChar c s ≠ [] := by
  cases s with
  | nil => simp [splitChar]
  | cons x xs =>
    unfold splitChar
    cases h : splitChar c xs with
    | nil => simp
    | cons hh tt =>
      by_cases hx : x = c <;> simp [hx]

/-- Shared: splitting a separator-free list gives it back whole. -/
theorem splitChar_no_sep (c : Char) (s : List Char) (h : s.contains c = false) :
    splitChar c s = [s] := by
  induction s with
  | nil => rfl
  | cons x xs ih =>
    rw [List.contains_cons, Bool.or_eq_false_iff] at h
    have hx : ¬x = c := by
      intro hh; rw [hh] at h; simp at h
    unfold splitChar
    rw [ih h.2]
    simp [hx]

/-- Shared: the `cons` equation of `splitChar`. -/
theorem splitChar_cons (c x : Char) (xs : List Char) :
    splitChar c (x :: xs) =
      match splitChar c xs with
      | [] => [[]]
      | h :: t => if x = c then [] :: h :: t else (x :: h) :: t := rfl

/-- Shared: splitting at the first separator peels off the separator-free
part before it. -/
theorem splitChar_append_sep (c : Char) (a rest : List Char)
    (h : a.contains c = false) :
    splitChar c (a ++ c :: rest) = a :: splitChar c rest := by
  induction a with
  | nil =>
    show splitChar c (c :: rest) = [] :: splitChar c rest
    rw [splitChar_cons]
    cases hr : splitChar c rest with
    | nil => exact absurd hr (splitChar_ne_nil c rest)
    | cons hh tt => simp
  | cons x xs ih =>
    rw [List.contains_cons, Bool.or_eq_false_iff] at h
    have hx : ¬x = c := by
      intro hh; rw [hh] at h; simp at h
    show splitChar c (x :: (xs ++ c :: rest)) = (x :: xs) :: splitChar c rest
    rw [splitChar_cons, ih h.2]
    simp [hx]

/-- Shared: the four `|`-free id components come back from the split. -/
theorem goSplit_docID (sn : String) (e : OpEntry)
    (h1 : sn.data.contains '|' = false)
    (h2 : e.method.data.contains '|' = false)
    (h3 : e.template.data.contains '|' = false)
    (h4 : e.operationID.data.contains '|' = false) :
    goSplit (docID sn e) '|' = [sn, e.method, e.template, e.operationID] := by
  unfold goSplit docID
  have hd : (sn ++ "|" ++ e.method ++ "|" ++ e.template ++ "|" ++ e.operationID).data
      = sn.data ++ '|' ::
        (e.method.data ++ '|' :: (e.template.data ++ '|' :: e.operationID.data)) := by
    simp [String.data_append]
  rw [hd, splitChar_append_sep _ _ _ h1, splitChar_append_sep _ _ _ h2,
      splitChar_append_sep _ _ _ h3, splitChar_no_sep _ _ h4]
  rfl

/-- Shared: filtering the string wrappers back out of a mapped tag list. -/
theorem strs_filterMap (tags : List String) :
    (tags.map GoVal.str).filterMap
        (fun x => match x with | GoVal.str s => some s | _ => Option.none) = tags := by
  induction tags with
  | nil => rfl
  | cons t ts ih =>
    rw [List.map_cons, List.filterMap_cons]
    simpa using ih

/-- Shared: the stored `Tags` field round-trips through
`ifaceSliceToString`. -/
theorem tags_roundtrip (tags : List String) :
    ifaceSliceToString (some (.arr (tags.map .str))) = tags :=
  strs_filterMap tags

/-- The entry of the test suite's `getThing` operation, whose summary is a
non-empty description. -/
def c3Entry : OpEntry :=
  ⟨"GET", "/things/{id}", "getThing", "Retrieve a thing", ["alpha", "beta"]⟩

/-- C3 counterexample: materialising the hit for `c3Entry`'s own document
(the unique `getThing` hit) yields a `SearchResult` whose `Description` is
empty — `SearchBleve` rebuilds results from the id split only and never
reads the stored `Description` field — so the round-trip is *not* the
identity on all six fields as claimed. -/
theorem c3_counterexample :
    (materialiseHit (docID "search-spec" c3Entry)
        (docFields "search-spec" c3Entry)).description = "" ∧
    c3Entry.description = "Retrieve a thing" ∧
    materialiseHit (docID "search-spec" c3Entry) (docFields "search-spec" c3Entry) ≠
      ⟨"search-spec", c3Entry.operationID, c3Entry.method, c3Entry.template,
       c3Entry.description, c3Entry.tags⟩ :=
  ⟨rfl, rfl, by decide⟩

/-- C3 (amended): for an `OpEntry` whose id components contain no `|`,
materialising its own hit returns its `SpecName`, `Method`, `Template`,
`OperationID` and `Tags` unchanged, but always an empty `Description`
(which therefore differs from the entry's whenever that was non-empty). -/
theorem c3_roundtrip_drops_description (sn : String) (e : OpEntry)
    (h1 : sn.data.contains '|' = false)
    (h2 : e.method.data.contains '|' = false)
    (h3 : e.template.data.contains '|' = false)
    (h4 : e.operationID.data.contains '|' = false) :
    materialiseHit (docID sn e) (docFields sn e) =
      ⟨sn, e.operationID, e.method, e.template, "", e.tags⟩ := by
  unfold materialiseHit
  rw [goSplit_docID sn e h1 h2 h3 h4]
  have hf : lookupField (docFields sn e) "Tags" = some (.arr (e.tags.map .str)) := rfl
  rw [hf, tags_roundtrip]

/-- C3 witness: the amended round-trip at the `getThing` entry. -/
theorem c3_roundtrip_witness :
    materialiseHit (docID "search-spec" c3Entry) (docFields "search-spec" c3Entry) =
      ⟨"search-spec", c3Entry.operationID, c3Entry.method, c3Entry.template,
       "", c3Entry.tags⟩ :=
  c3_roundtrip_drops_description "search-spec" c3Entry
    (by decide) (by decide) (by decide) (by decide)

/-! ## Theorem for C6: rebuild decision and idempotence -/

/-- C6: `BuildOrOpenSpecIndex` rebuilds iff the hash-sibling content that
`os.ReadFile` returns (`""` when absent) differs from
`SpecIndex.ContentHash` or the shard directory does not exist — otherwise
it opens the existing shard — and running it again on the resulting state
with the same content hash performs no rebuild. -/
theorem c6_rebuild_iff_and_second_run_opens (fs : ShardFS) (h : String) :
    ((buildOrOpenSpecIndex fs h).1 = true ↔
      (fs.hashContent.getD "" ≠ h ∨ fs.dirExists = false)) ∧
    (buildOrOpenSpecIndex (buildOrOpenSpecIndex fs h).2 h).1 = false := by
  unfold buildOrOpenSpecIndex
  by_cases h1 : fs.hashContent.getD "" = h <;> by_cases h2 : fs.dirExists <;>
    simp [h1, h2]

/-! ## Theorems for C7 and C8: the log parser -/

/-- C7: `ParseLog` fails with the malformed-log error iff, after consuming
every line of the stream, the accumulated `Method` or `URI` is empty; when
both are set it returns the `ParsedRequest` built from the accumulator,
without error. -/
theorem c7_parse_error_iff_missing_method_or_uri (lines : List String) :
    (parseLog lines = .error "missing method or URI" ↔
      ((finalAccum lines).method = "" ∨ (finalAccum lines).uri = "")) ∧
    ((finalAccum lines).method ≠ "" → (finalAccum lines).uri ≠ "" →
      parseLog lines = .ok ⟨(finalAccum lines).method, (finalAccum lines).uri,
        (finalAccum lines).headers, (finalAccum lines).params,
        String.intercalate "\n" (finalAccum lines).bodyLines⟩) := by
  unfold parseLog
  by_cases h1 : (finalAccum lines).method = "" <;>
    by_cases h2 : (finalAccum lines).uri = "" <;> simp [h1, h2]

/-- C7 witness: a minimal well-formed log parses without error. -/
theorem c7_parse_witness :
    parseLog ["Request method: GET", "Request URI: http://e/x"] =
      .ok ⟨"GET", "http://e/x", [], [], ""⟩ :=
  ((c7_parse_error_iff_missing_method_or_uri
      ["Request method: GET", "Request URI: http://e/x"]).2
    (by decide) (by decide)).trans (by rfl)

/-- C8 counterexample: in the `Body` state the line `Headers: k=v` is
neither blank nor a `Response` line, yet it is intercepted by the earlier
`Headers:` switch case — the parser moves to the `Headers` state and the
line is *not* appended to the body, refuting "every other line is
appended". -/
theorem c8_counterexample :
    goTrimSpace "Headers: k=v" ≠ "" ∧
    goStartsWith (goTrimSpace "Headers: k=v") "Response" = false ∧
    (parseStep ⟨"GET", "http://x/y", [], [], ["line1"], .body⟩
        "Headers: k=v").state = ParseState.headers ∧
    (parseStep ⟨"GET", "http://x/y", [], [], ["line1"], .body⟩
        "Headers: k=v").bodyLines = ["line1"] := by decide

/-- C8 (amended): while in the `Body` state, for a line whose trimmed form
starts with none of the four directive markers (`Request method:`,
`Request URI:`, `Headers:`, `Body:` — those are captured by the earlier
switch cases in every state): a blank line or a line beginning with
`Response` returns the parser to `None`, and every other such line is
appended to the collected body. -/
theorem c8_body_state_step (acc : ParseAccum) (line : String)
    (hstate : acc.state = .body)
    (h1 : goStartsWith (goTrimSpace line) "Request method:" = false)
    (h2 : goStartsWith (goTrimSpace line) "Request URI:" = false)
    (h3 : goStartsWith (goTrimSpace line) "Headers:" = false)
    (h4 : goStartsWith (goTrimSpace line) "Body:" = false) :
    ((goTrimSpace line = "" ∨ goStartsWith (goTrimSpace line) "Response" = true) →
      parseStep acc line = { acc with state := ParseState.none }) ∧
    (goTrimSpace line ≠ "" → goStartsWith (goTrimSpace line) "Response" = false →
      parseStep acc line = { acc with bodyLines := acc.bodyLines ++ [goTrimSpace line] }) := by
  constructor
  · intro hc
    rcases hc with hc | hc
    · simp [parseStep, hstate, hc,
        (by decide : goStartsWith "" "Request method:" = false),
        (by decide : goStartsWith "" "Request URI:" = false),
        (by decide : goStartsWith "" "Headers:" = false),
        (by decide : goStartsWith "" "Body:" = false)]
    · simp [parseStep, h1, h2, h3, h4, hstate, hc]
  · intro hne hr
    simp [parseStep, h1, h2, h3, h4, hstate, hne, hr]

/-- C8 witness: an ordinary body line is appended and the state stays
`Body`. -/
theorem c8_body_state_step_witness :
    parseStep ⟨"GET", "http://x/y", [], [], [], ParseState.body⟩ "payload" =
      ⟨"GET", "http://x/y", [], [], ["payload"], ParseState.body⟩ :=
  ((c8_body_state_step ⟨"GET", "http://x/y", [], [], [], ParseState.body⟩ "payload"
      rfl (by decide) (by decide) (by decide) (by decide)).2
    (by decide) (by decide)).trans (by rfl)

/-! ## Theorem for C9: count mismatch after a template match -/

/-- C9: when the candidate `r` heads the hit list, belongs to the resolved
spec, matches the requested method, and its template matches `full` or
`rel`, but the template's segment count differs from that of the stripped
full path, `extractPathParams` returns the empty map and `FindOperation`
still resolves to `(specName, operationId)` successfully. -/
theorem c9_mismatched_params_still_resolves
    (reg : Registry) (meta : SpecIndex) (r : SearchResult)
    (rest : List SearchResult) (u : GoURL) (method rawURL : String)
    (hparse : goURLParse rawURL = .ok u)
    (hreg : regLookup reg (goHostname u.host) = some meta)
    (hspec : r.specName = meta.specName)
    (hmeth : r.method = goToUpper method)
    (hmatch : matchTemplate r.template u.path = true ∨
              matchTemplate r.template (relPath meta.basePath u.path) = true)
    (hcount : (segsOf r.template).length ≠
              (segsOf (goStripPre (goStripPre u.path meta.basePath) "/")).length) :
    extractPathParams meta.basePath r.template u.path = [] ∧
    findOperation reg (r :: rest) method rawURL =
      .ok (r.specName, r.operationID, []) := by
  have hext : extractPathParams meta.basePath r.template u.path = [] := by
    unfold extractPathParams
    simp [hcount]
  refine ⟨hext, ?_⟩
  unfold findOperation
  simp only [hparse, hreg]
  unfold findCandidate
  rw [List.findSome?_cons]
  have hcond : (matchTemplate r.template u.path ||
      matchTemplate r.template (relPath meta.basePath u.path)) = true := by
    rcases hmatch with hm | hm <;> simp [hm]
  simp [hspec, hmeth, hcond, hext]

/-- The spec index of the C9 witness scenario. -/
def c9Meta : SpecIndex := ⟨"test-spec", "/abs/t.json", "example.com", "/api", "h9"⟩

/-- The hit of the C9 witness scenario: a two-segment all-parameter
template that matches the *full* path (base path included), making the
stripped path one segment short. -/
def c9Hit : SearchResult := ⟨"test-spec", "getPair", "GET", "/{a}/{b}", "", []⟩

/-- C9 witness: the scenario resolves successfully with an empty parameter
map. -/
theorem c9_mismatched_params_witness :
    extractPathParams c9Meta.basePath c9Hit.template "/api/items" = [] ∧
    findOperation [("example.com", c9Meta)] [c9Hit] "get"
        "http://example.com/api/items" =
      .ok (c9Hit.specName, c9Hit.operationID, []) :=
  c9_mismatched_params_still_resolves [("example.com", c9Meta)] c9Meta c9Hit []
    ⟨"http", "example.com", "/api/items", ""⟩ "get" "http://example.com/api/items"
    rfl rfl rfl rfl (Or.inl (by decide)) (by decide)

/-! ## Theorem for C10: sanitizer totality and the empty-key panic -/

/-- Shared: a string with an empty character list is the empty string. -/
theorem string_eq_empty_of_data (s : String) (h : s.data = []) : s = "" := by
  cases s with
  | mk d =>
    show String.mk d = ""
    rw [show d = [] from h]

/-- Shared: the sanitizer loop completes when every visited key is
non-empty. -/
theorem sanitizeSchemasLoop_isSome (schemas : List (String × GoVal)) :
    ∀ acc, (∀ kv ∈ schemas, kv.1 ≠ "") →
      (sanitizeSchemasLoop acc schemas).isSome = true := by
  induction schemas with
  | nil => intro acc h; rfl
  | cons kv rest ih =>
    intro acc h
    have hk : kv.1 ≠ "" := h kv (List.mem_cons_self _ _)
    have ht : ∃ t, titleCaseKey kv.1 = some t := by
      unfold titleCaseKey
      cases hdata : kv.1.data with
      | nil => exact absurd (string_eq_empty_of_data _ hdata) hk
      | cons c cs => exact ⟨_, rfl⟩
    obtain ⟨t, ht⟩ := ht
    unfold sanitizeSchemasLoop
    rw [ht]
    exact ih _ fun x hx => h x (List.mem_cons_of_mem _ hx)

/-- C10: `sanitizeComponents` is total exactly under non-empty schema keys:
it terminates without a fault on every document all of whose
`components.schemas` keys are non-empty, while on a document carrying the
empty string as a schema key the `k[0]` access is out of bounds and
indexing that spec panics. -/
theorem c10_sanitize_total_iff_nonempty_keys (raw : List (String × GoVal))
    (h : ∀ k ∈ schemaKeys raw, k ≠ "") :
    (sanitizeComponents raw).isSome = true ∧
    sanitizeComponents [("components", .obj [("schemas", .obj [("", .null)])])] =
      Option.none := by
  refine ⟨?_, rfl⟩
  unfold sanitizeComponents
  unfold schemaKeys at h
  split
  next comps hcomp =>
    split
    next schemas hschemas =>
      simp only [hcomp, hschemas] at h
      have hs : ∀ kv ∈ schemas, kv.1 ≠ "" := fun kv hkv =>
        h kv.1 (List.mem_map_of_mem _ hkv)
      have hsome := sanitizeSchemasLoop_isSome schemas schemas hs
      unfold sanitizeSchemas
      cases hv : sanitizeSchemasLoop schemas schemas with
      | none => rw [hv] at hsome; simp at hsome
      | some v => rfl
    next hschemas => rfl
  next hcomp => rfl

/-- C10 witness: a document with the single non-empty schema key `foo`
sanitizes successfully. -/
theorem c10_sanitize_witness :
    (sanitizeComponents
        [("components", .obj [("schemas", .obj [("foo", .null)])])]).isSome = true ∧
    sanitizeComponents [("components", .obj [("schemas", .obj [("", .null)])])] =
      Option.none :=
  c10_sanitize_total_iff_nonempty_keys
    [("components", .obj [("schemas", .obj [("foo", .null)])])]
    (by intro k hk; simp [schemaKeys, lookupField] at hk; simp [hk])

end BetterDocs
